import Mathlib

/-!
Verification development for the structural assignability core
(`src/typescript/checker/src/analyzer/assign.rs`).

The engine itself (`assign`, `assign_inner`, the `handle_type_lit` macro,
`check_init`, `is_key_eq`) is embedded directly from `assign.rs`.  The type
algebra, the error taxonomy, normalization, literal widening and the two
equality helpers live in modules of the repository that are not part of the
two given source files; those are modelled from the specification (each such
definition says so in its doc comment).

Source spans are diagnostic-only metadata (the spec's equalities are all
span-insensitive), so types are embedded span-free; the `span` parameter of
the engine is kept (as a `Nat`) because errors carry it.

A Rust `panic!`/`unimplemented!` is modelled as the third result
`AResult.unimpl`, which propagates through every combinator untouched
(like an unwinding panic); `Result::Err` is `AResult.err`.
-/

/-- Modelled from the spec: the keyword kinds of §3.1 (mirrors
`swc_ecma_ast::TsKeywordTypeKind`, which is outside `src/`). -/
inductive TsKeywordTypeKind where
  | tsAnyKeyword
  | tsUnknownKeyword
  | tsStringKeyword
  | tsNumberKeyword
  | tsBooleanKeyword
  | tsObjectKeyword
  | tsVoidKeyword
  | tsUndefinedKeyword
  | tsNullKeyword
  | tsNeverKeyword
  | tsSymbolKeyword
  | tsBigIntKeyword
  deriving DecidableEq, Repr

/-- Modelled from the spec: literal types (string / number / boolean).  The
string case keeps the source AST's escape flag, which `eq_ignore_span`
compares but the value-only extra check in the `Lit` rule ignores.  Number
literal values are embedded as integers. -/
inductive TsLit where
  | str (value : String) (has_escape : Bool)
  | num (value : Int)
  | bool (value : Bool)
  deriving DecidableEq, Repr

/-- Modelled from the spec: the member-key expressions of §4.3 (identifier,
string literal, numeric literal, computed key).  Mirrors the fragment of
`swc_ecma_ast::Expr` the engine inspects; `Expr` itself is outside `src/`. -/
inductive Expr where
  | ident (sym : String)
  | str (value : String)
  | num (value : Int)
  | computed
  deriving DecidableEq, Repr

/-- Modelled from the spec: one enum member, with its optional initializer
expression (`TsEnumMember` is outside `src/`). -/
structure EnumMember where
  id : String
  init : Option Expr
  deriving DecidableEq, Repr

/-- Modelled from the spec: class members, restricted to the shapes the
engine inspects (a constructor, a keyed property, a keyed method). -/
inductive ClassMember where
  | constructorM
  | classProp (key : Expr)
  | methodM (key : Expr)
  deriving DecidableEq, Repr

mutual
/-- Modelled from the spec: the type algebra of §3.1 (`crate::ty::Type` is
outside `src/`).  `Ref`, `Static` and alias indirections are excluded: the
spec's invariants (§3.3) bar `Ref` from engine inputs, and `Static`/aliases
are erased by normalization before any rule looks at a type.  `cls` stands
for the source's `Class` (a Lean keyword). -/
inductive Ty where
  | keyword (kind : TsKeywordTypeKind)
  | lit (lit : TsLit)
  | array (elem_type : Ty)
  | tuple (types : List Ty)
  | union (types : List Ty)
  | intersection (types : List Ty)
  | typeLit (members : List TypeElement)
  | interface (name : String) (extends_ : List Ty) (body : List TypeElement)
  | cls (name : String) (body : List ClassMember)
  | classInstance (name : String) (body : List ClassMember)
  | function (type_params : Option (List String)) (params : List Ty) (ret_ty : Ty)
  | constructorTy (params : List Ty) (ret_ty : Ty)
  | param (name : String) (constraint : Option Ty) (default_ : Option Ty)
  | enum (id : String) (members : List EnumMember)
  | enumVariant (enum_name : String) (name : String)
  | this
  | predicate (param_name : String) (ty : Ty)

/-- Modelled from the spec: object-type members (§3.1's `TypeElement`). -/
inductive TypeElement where
  | property (key : Expr) (optional : Bool) (type_ann : Option Ty)
  | method (key : Expr)
  | call (params : List Ty) (ret_ty : Option Ty)
  | constructorEl (params : List Ty) (ret_ty : Option Ty)
  | index (value_ty : Option Ty)
end

/-- Modelled from the spec: the error taxonomy of §7.1 (`crate::errors::Error`
is outside `src/`).  Field names follow the source's uses in `assign.rs`
(`cause`, `errors`, `fields`); the source's spelling `CannotAssingToThis` is
kept.  `Unimplemented` is not a constructor here because in the source it is
a panic, not an `Error` value: see `AResult.unimpl`. -/
inductive Error where
  | assignFailed (span : Nat) (left right : Ty) (cause : List Error)
  | unionError (span : Nat) (errors : List Error)
  | intersectionError (span : Nat) (error : Error)
  | missingFields (span : Nat) (fields : List TypeElement)
  | constructorRequired (span : Nat)
  | assignedWrapperToPrimitive (span : Nat)
  | cannotAssingToThis (span : Nat)
  | errors (span : Nat) (errors : List Error)

/-- Outcome of one engine query: success, an `Error`, or an uncaught
`unimplemented!` panic (which no combinator intercepts). -/
inductive AResult where
  | ok
  | err (e : Error)
  | unimpl (msg : String)

/-- The configuration record (§4.5); `self.rule` in the source. -/
structure Rule where
  strict_null_checks : Bool

def Error.isAssignFailed : Error → Bool
  | .assignFailed _ _ _ _ => true
  | _ => false

/-- Modelled from the spec: §3.2 normalization returns the top-level
canonical shape; on this algebra (no aliases, no `Static`) that is unwrapping
single-variant unions. -/
def Ty.normalize : Ty → Ty
  | .union [t] => Ty.normalize t
  | t => t

/-- Modelled from the spec: §3.2 `generalize_lit` widens a top-level literal
type to its enclosing primitive keyword and leaves all other types
unchanged. -/
def generalize_lit : Ty → Ty
  | .lit (.str _ _) => .keyword .tsStringKeyword
  | .lit (.num _) => .keyword .tsNumberKeyword
  | .lit (.bool _) => .keyword .tsBooleanKeyword
  | t => t

/-- Modelled from the spec: `Type::is_keyword` tests the normalized shape
(§3.2: all rules match on normalized forms). -/
def Ty.is_keyword (t : Ty) (k : TsKeywordTypeKind) : Bool :=
  match Ty.normalize t with
  | .keyword k2 => k = k2
  | _ => false

/-- `TypeElement::key()`: the key of a keyed member (property / method). -/
def TypeElement.key : TypeElement → Option Expr
  | .property k _ _ => some k
  | .method k => some k
  | _ => none

/-- Modelled from the spec: §4.3 key equality (the `eq_ignore_span` instance
on key expressions is outside `src/`): identifiers by symbol, identifier /
string literal cross-compared by value, a numeric literal by its decimal text
against a symbol, computed keys never equal. -/
def keyEq : Expr → Expr → Bool
  | .ident a, .ident b => a = b
  | .ident a, .str b => a = b
  | .str a, .ident b => a = b
  | .str a, .str b => a = b
  | .num a, .ident b => toString a = b
  | .num a, .str b => toString a = b
  | .ident a, .num b => a = toString b
  | .str a, .num b => a = toString b
  | .num a, .num b => a = b
  | _, _ => false

/-- `is_key_eq` from `assign.rs`: true only for two identifier keys that are
equal ignoring spans. -/
def is_key_eq (l r : Expr) : Bool :=
  match l, r with
  | .ident a, .ident b => a = b
  | _, _ => false

/-- `ty.unwrap_or(Type::any(span))`: a missing member type is `any`. -/
def tyOr (o : Option Ty) : Ty :=
  o.getD (.keyword .tsAnyKeyword)

mutual
/-- Modelled from the spec: §4.4 equality ignoring names and spans (the
`EqIgnoreNameAndSpan` impl is outside `src/`).  Structural equality with
interface names, type-parameter names and predicate binder names ignored;
spans do not exist in this embedding. -/
def eqINS : Ty → Ty → Bool
  | .keyword a, .keyword b => a = b
  | .lit a, .lit b => a = b
  | .array a, .array b => eqINS a b
  | .tuple as_, .tuple bs => eqINSList as_ bs
  | .union as_, .union bs => eqINSList as_ bs
  | .intersection as_, .intersection bs => eqINSList as_ bs
  | .typeLit ms, .typeLit ns => eqINSElems ms ns
  | .interface _ ea ba, .interface _ eb bb => eqINSList ea eb && eqINSElems ba bb
  | .cls na ba, .cls nb bb => na = nb && ba = bb
  | .classInstance na ba, .classInstance nb bb => na = nb && ba = bb
  | .function ta pa ra, .function tb pb rb =>
      ta.isSome = tb.isSome && eqINSList pa pb && eqINS ra rb
  | .constructorTy pa ra, .constructorTy pb rb => eqINSList pa pb && eqINS ra rb
  | .param _ ca da, .param _ cb db => eqINSOpt ca cb && eqINSOpt da db
  | .enum ia ma, .enum ib mb => ia = ib && ma = mb
  | .enumVariant ea na, .enumVariant eb nb => ea = eb && na = nb
  | .this, .this => true
  | .predicate _ ta, .predicate _ tb => eqINS ta tb
  | _, _ => false

def eqINSList : List Ty → List Ty → Bool
  | [], [] => true
  | a :: as_, b :: bs => eqINS a b && eqINSList as_ bs
  | _, _ => false

def eqINSOpt : Option Ty → Option Ty → Bool
  | none, none => true
  | some a, some b => eqINS a b
  | _, _ => false

def eqINSElem : TypeElement → TypeElement → Bool
  | .property ka oa aa, .property kb ob ab => ka = kb && oa = ob && eqINSOpt aa ab
  | .method ka, .method kb => ka = kb
  | .call pa ra, .call pb rb => eqINSList pa pb && eqINSOpt ra rb
  | .constructorEl pa ra, .constructorEl pb rb => eqINSList pa pb && eqINSOpt ra rb
  | .index va, .index vb => eqINSOpt va vb
  | _, _ => false

def eqINSElems : List TypeElement → List TypeElement → Bool
  | [], [] => true
  | a :: as_, b :: bs => eqINSElem a b && eqINSElems as_ bs
  | _, _ => false
end

/-- `check_init` from `assign.rs`: the body only short-circuits when both
flags are already set and otherwise does nothing, so it never records any
initializer kind.  (Embedded as written in the source; see the enum rule.) -/
def check_init (has_str has_num : Bool) (_expr : Expr) : Bool × Bool :=
  if has_str && has_num then (has_str, has_num) else (has_str, has_num)

def isOkR : AResult → Bool
  | .ok => true
  | _ => false

/-- First panic among a list of arm results (a Rust iteration panics at the
first `unimplemented!` it evaluates). -/
def firstUnimpl : List AResult → Option String
  | [] => none
  | .unimpl m :: _ => some m
  | _ :: rest => firstUnimpl rest

/-- The errors of the failing arms, in arm order (`filter_map` on `Err`). -/
def errsOf : List AResult → List Error
  | [] => []
  | .err e :: rest => e :: errsOf rest
  | _ :: rest => errsOf rest

/-- The first `Err` among a list of arm results. -/
def firstErr : List AResult → Option Error
  | [] => none
  | .err e :: _ => some e
  | _ :: rest => firstErr rest

/-- Phase A of `assign_inner`: the wrapper/primitive special cases, tried for
`(boolean, "Boolean")`, `(string, "String")`, `(number, "Number")` in that
order; `some` is an early return. -/
def specialCaseStep (kwd : TsKeywordTypeKind) (iname : String) (to' rhs : Ty)
    (s : Nat) : Option AResult :=
  match Ty.normalize to' with
  | .keyword k =>
      if k = kwd then
        match Ty.normalize (generalize_lit rhs) with
        | .interface nm _ _ =>
            if nm = iname then some (.err (.assignedWrapperToPrimitive s)) else none
        | _ => none
      else none
  | .interface nm _ _ =>
      if nm = iname then
        match Ty.normalize (generalize_lit rhs) with
        | .keyword k => if k = kwd then some .ok else none
        | _ => none
      else none
  | _ => none

def specialCase (to' rhs : Ty) (s : Nat) : Option AResult :=
  (specialCaseStep .tsBooleanKeyword "Boolean" to' rhs s).orElse fun _ =>
    (specialCaseStep .tsStringKeyword "String" to' rhs s).orElse fun _ =>
      specialCaseStep .tsNumberKeyword "Number" to' rhs s

/-- Phase E of `assign_inner` (the tail of the function): succeed when the
two types are equal ignoring names and spans, otherwise the pair is
unhandled and the source panics (`unimplemented!`). -/
def phaseE (to' rhs : Ty) : AResult :=
  if eqINS to' rhs then .ok else .unimpl "assign"

/-! Termination measure for the engine.  The weights are chosen so that every
recursive call of the decision procedure strictly decreases `size to + size
rhs`: fresh keyword types (built by the enum rule and for missing member
types) have size 1, while the shapes that build them weigh at least 2. -/

mutual
def Ty.size : Ty → Nat
  | .keyword _ => 1
  | .lit _ => 1
  | .this => 1
  | .enumVariant _ _ => 1
  | .cls _ _ => 1
  | .classInstance _ _ => 1
  | .enum _ _ => 2
  | .array e => 1 + e.size
  | .tuple ts => 1 + sizeList ts
  | .union ts => 2 + sizeList ts
  | .intersection ts => 2 + sizeList ts
  | .typeLit ms => 2 + sizeElems ms
  | .interface _ ext body => 2 + sizeList ext + sizeElems body
  | .function _ ps ret => 1 + sizeList ps + ret.size
  | .constructorTy ps ret => 1 + sizeList ps + ret.size
  | .param _ c d => 1 + sizeOpt c + sizeOpt d
  | .predicate _ t => 1 + t.size

def sizeList : List Ty → Nat
  | [] => 0
  | t :: ts => 1 + t.size + sizeList ts

def sizeOpt : Option Ty → Nat
  | none => 0
  | some t => 1 + t.size

def TypeElement.esize : TypeElement → Nat
  | .property _ _ none => 3
  | .property _ _ (some t) => 2 + t.size
  | .method _ => 1
  | .call _ _ => 1
  | .constructorEl _ _ => 1
  | .index _ => 1

def sizeElems : List TypeElement → Nat
  | [] => 0
  | e :: es => 1 + e.esize + sizeElems es
end

theorem size_pos (t : Ty) : 1 ≤ t.size := by
  cases t <;> simp [Ty.size] <;> omega

theorem size_normalize_le (t : Ty) : t.normalize.size ≤ t.size := by
  induction t using Ty.normalize.induct with
  | case1 x ih =>
    rw [Ty.normalize]
    calc x.normalize.size ≤ x.size := ih
    _ ≤ (Ty.union [x]).size := by simp only [Ty.size, sizeList]; omega
  | case2 t h =>
    have ht : t.normalize = t := by
      cases t
      case union ts =>
        match ts, h with
        | [], _ => rfl
        | [a], h => exact absurd rfl (h a)
        | _ :: _ :: _, _ => rfl
      all_goals rfl
    rw [ht]

theorem size_ge_of_normalize_eq {t u : Ty} (h : t.normalize = u) : u.size ≤ t.size :=
  h ▸ size_normalize_le t

theorem esize_property (k : Expr) (o : Bool) (a : Option Ty) :
    (TypeElement.property k o a).esize = 2 + (tyOr a).size := by
  cases a <;> rfl

theorem esize_method (k : Expr) : (TypeElement.method k).esize = 1 := rfl

theorem esize_call (ps : List Ty) (rt : Option Ty) :
    (TypeElement.call ps rt).esize = 1 := rfl

theorem esize_constructorEl (ps : List Ty) (rt : Option Ty) :
    (TypeElement.constructorEl ps rt).esize = 1 := rfl

theorem esize_index (vt : Option Ty) : (TypeElement.index vt).esize = 1 := rfl

/-- Outcome of the inner scan over the right-hand members for one keyed
left member (the `for rm in rhs_members` loop of `handle_type_lit`):
`matched` is `continue 'l`, `failedR` is an early return of the whole
query (the `?` on the property assignment, or an `unimplemented!`),
`nomatch` falls out of the loop (the member is recorded as missing). -/
inductive ScanR where
  | matched
  | failedR (res : AResult)
  | nomatch

mutual
/-- `assign_inner` from `assign.rs` (lines 28–723): Phase A
(wrapper/primitive special cases), Phase B (`any`/`unknown` on the left),
the rules keyed on the normalized right side, then `assignLhs`.
The `span` shadowing in the source's union arm binds the union's own span;
types are span-free here, so the same `s` is used. -/
def assign_inner (r : Rule) (to' rhs : Ty) (s : Nat) : AResult :=
  match specialCase to' rhs s with
  | some res => res
  | none =>
    match Ty.normalize to' with
    | .keyword .tsAnyKeyword => .ok
    | .keyword .tsUnknownKeyword => .ok
    | _ =>
      assignRhs r to' rhs s
termination_by (to'.size + rhs.size, 3)
decreasing_by
  all_goals simp_wf
  all_goals exact Prod.Lex.right _ (by omega)

/-- The rules of `assign_inner` keyed on the normalized right side (the
`match *rhs.normalize()` at line 283), falling through to `assignLhs`. -/
def assignRhs (r : Rule) (to' rhs : Ty) (s : Nat) : AResult :=
  match hR : Ty.normalize rhs with
  | .keyword .tsUndefinedKeyword =>
      if r.strict_null_checks then assignLhs r to' rhs s else .ok
  | .keyword .tsNullKeyword =>
      if r.strict_null_checks then assignLhs r to' rhs s else .ok
  | .union types =>
      let rs := mapAssignR r to' types s
      (match firstUnimpl rs with
       | some m => .unimpl m
       | none =>
           match errsOf rs with
           | [] => .ok
           | es => .err (.unionError s es))
  | .keyword .tsAnyKeyword => .ok
  | .keyword .tsUnknownKeyword =>
      if to'.is_keyword .tsAnyKeyword || to'.is_keyword .tsUndefinedKeyword then .ok
      else .err (.assignFailed s to' rhs [])
  | .param name constraint _ =>
      if (match Ty.normalize to' with
          | .param l_name _ _ => decide (l_name = name)
          | _ => false) then .ok
      else
        (match constraint with
         | some c => assign_inner r to' c s
         | none =>
             match Ty.normalize to' with
             | .typeLit [] => .ok
             | _ => .err (.assignFailed s to' rhs []))
  | .enum _ members =>
      let flags := members.foldl
        (fun acc m =>
          match m.init with
          | some i => check_init acc.1 acc.2 i
          | none => acc) (false, false)
      if !flags.1 && !flags.2 then assign_inner r to' (.keyword .tsNumberKeyword) s
      else if !flags.2 then assign_inner r to' (.keyword .tsStringKeyword) s
      else if !flags.1 then assign_inner r to' (.keyword .tsNumberKeyword) s
      else .unimpl "assigning enum with string / number variant"
  | _ => assignLhs r to' rhs s

termination_by (to'.size + rhs.size, 2)
decreasing_by
  all_goals simp_wf
  all_goals
    first
    | exact Prod.Lex.right _ (by omega)
    | (apply Prod.Lex.left
       (try subst hm)
       (try subst hrm)
       (try have g1 := size_ge_of_normalize_eq hT)
       (try have g2 := size_ge_of_normalize_eq hR)
       simp only [Ty.size, esize_property, esize_method, esize_call,
         esize_constructorEl, esize_index, sizeList, sizeElems, sizeOpt] at *
       intros
       omega)

/-- The rules of `assign_inner` keyed on the normalized left side (the
`match *to.normalize()` at line 428), followed by Phase E (`phaseE`). -/
def assignLhs (r : Rule) (to' rhs : Ty) (s : Nat) : AResult :=
  match hT : Ty.normalize to' with
  | .param _ (some c) _ => assign_inner r c rhs s
  | .array elem_type =>
      (match rhs with
       | .array rhs_elem_type =>
           (match assign_inner r elem_type rhs_elem_type s with
            | .err cause => .err (.assignFailed s to' rhs [cause])
            | .ok => .ok
            | .unimpl msg => .unimpl msg)
       | .tuple types => arrayTupleLoop r elem_type types s
       | _ => .err (.assignFailed s to' rhs []))
  | .union types =>
      let rs := mapAssignL r types rhs s
      (match firstUnimpl rs with
       | some m => .unimpl m
       | none =>
           if rs.any isOkR then .ok
           else .err (.unionError s (errsOf rs)))
  | .intersection types =>
      let rs := mapAssignL r types rhs s
      (match firstUnimpl rs with
       | some m => .unimpl m
       | none =>
           match firstErr rs with
           | some e => .err (.intersectionError s e)
           | none => .ok)
  | .keyword .tsObjectKeyword =>
      (match rhs with
       | .keyword .tsNumberKeyword => .ok
       | .keyword .tsStringKeyword => .ok
       | .function _ _ _ => .ok
       | .constructorTy _ _ => .ok
       | .enum _ _ => .ok
       | .cls _ _ => .ok
       | .typeLit _ => .ok
       | _ => phaseE to' rhs)
  | .keyword kind =>
      if (match rhs with
          | .keyword rhs_kind => decide (rhs_kind = kind)
          | _ => false) then .ok
      else
        (match kind, rhs with
         | .tsStringKeyword, .lit (.str _ _) => .ok
         | .tsNumberKeyword, .lit (.num _) => .ok
         | .tsBooleanKeyword, .lit (.bool _) => .ok
         | _, _ => .err (.assignFailed s to' rhs []))
  | .enum id members =>
      (match rhs with
       | .enumVariant enum_name _ =>
           if enum_name = id then .ok
           else .err (.assignFailed s (.enum id members) rhs [])
       | _ => .err (.assignFailed s (.enum id members) rhs []))
  | .enumVariant enum_name name =>
      (match rhs with
       | .enumVariant r_enum r_name =>
           if enum_name = r_enum && name = r_name then .ok
           else .err (.assignFailed s to' rhs [])
       | _ => .err (.assignFailed s to' rhs []))
  | .this => .err (.cannotAssingToThis s)
  | .interface _ _ body => handle_type_lit r to' rhs body s [] []
  | .typeLit members => handle_type_lit r to' rhs members s [] []
  | .lit l =>
      (match rhs with
       | .lit r_lit =>
           if l = r_lit then .ok
           else if (match l, r_lit with
                    | .str lv _, .str rv _ => decide (lv = rv)
                    | _, _ => false) then .ok
           else .err (.assignFailed s to' rhs [])
       | _ => .err (.assignFailed s to' rhs []))
  | .function tp _ ret_ty =>
      (match tp with
       | some _ => phaseE to' rhs
       | none =>
           match rhs with
           | .function rtp _ r_ret_ty =>
               (match rtp with
                | some _ => phaseE to' rhs
                | none =>
                    match assign_inner r ret_ty r_ret_ty s with
                    | .ok => .ok
                    | .err e => .err e
                    | .unimpl msg => .unimpl msg)
           | _ => phaseE to' rhs)
  | .tuple types =>
      (match hR : Ty.normalize rhs with
       | .tuple r_types =>
           if types.length < r_types.length then .err (.assignFailed s to' rhs [])
           else tupleLoop r types r_types s
       | _ => phaseE to' rhs)
  | .predicate _ _ =>
      (match Ty.normalize rhs with
       | .keyword .tsBooleanKeyword => .ok
       | .lit (.bool _) => .ok
       | _ => phaseE to' rhs)
  | .cls name body =>
      (match Ty.normalize rhs with
       | .cls r_name r_body =>
           if name = r_name && body = r_body then .ok
           else .err (.assignFailed s to' rhs [])
       | .classInstance r_name r_body =>
           if name = r_name && body = r_body then .ok
           else .err (.assignFailed s to' rhs [])
       | _ => phaseE to' rhs)
  | _ => phaseE to' rhs

termination_by (to'.size + rhs.size, 1)
decreasing_by
  all_goals simp_wf
  all_goals
    first
    | exact Prod.Lex.right _ (by omega)
    | (apply Prod.Lex.left
       (try subst hm)
       (try subst hrm)
       (try have g1 := size_ge_of_normalize_eq hT)
       (try have g2 := size_ge_of_normalize_eq hR)
       simp only [Ty.size, esize_property, esize_method, esize_call,
         esize_constructorEl, esize_index, sizeList, sizeElems, sizeOpt] at *
       intros
       omega)

/-- The `handle_type_lit!` macro, invoked when the left side is an interface
or a type literal; `errors` and `missing_fields` are the two accumulators of
its loop. -/
def handle_type_lit (r : Rule) (to' rhs : Ty) (ms : List TypeElement) (s : Nat)
    (errors : List Error) (missing_fields : List TypeElement) : AResult :=
  match ms with
  | [] =>
      let errors2 := if missing_fields.isEmpty then errors
                     else errors ++ [.missingFields s missing_fields]
      if errors2.isEmpty then .ok else .err (.errors s errors2)
  | m :: rest =>
      match hR : Ty.normalize rhs with
      | .typeLit rhs_members =>
          (match m.key with
           | some l_key =>
               (match scanKeyed r m l_key rhs_members s with
                | .matched => handle_type_lit r to' rhs rest s errors missing_fields
                | .failedR res => res
                | .nomatch =>
                    handle_type_lit r to' rhs rest s errors (missing_fields ++ [m]))
           | none =>
               match m with
               | .index _ => handle_type_lit r to' rhs rest s errors missing_fields
               | _ =>
                   if rhs_members.any (fun rm => eqINSElem rm m) then
                     handle_type_lit r to' rhs rest s errors missing_fields
                   else handle_type_lit r to' rhs rest s errors (missing_fields ++ [m]))
      | .cls _ body =>
          (match m with
           | .call _ _ => .unimpl "assign: interface call to class"
           | .constructorEl _ _ =>
               if body.any (fun rm =>
                    match rm with
                    | .constructorM => true
                    | _ => false) then
                 handle_type_lit r to' rhs rest s errors missing_fields
               else
                 handle_type_lit r to' rhs rest s
                   (errors ++ [.constructorRequired s]) missing_fields
           | .property _ _ _ => .unimpl "assign: interface prop to class"
           | .method _ => .unimpl "assign: interface method to class"
           | .index _ => .unimpl "assign: interface index to class")
      | .classInstance _ body =>
          (match m with
           | .call _ _ => .unimpl "assign: interface call to class instance"
           | .constructorEl _ _ => .unimpl "assign: interface new to class instance"
           | .property l_key _ _ =>
               if body.any (fun rm =>
                    match rm with
                    | .classProp r_key => is_key_eq l_key r_key
                    | _ => false) then
                 handle_type_lit r to' rhs rest s errors missing_fields
               else .unimpl "assign: interface prop to class instance"
           | .method _ => .unimpl "assign: interface method to class instance"
           | .index _ => .unimpl "assign: interface index to class instance")
      | .tuple _ => .err (.assignFailed s to' rhs [])
      | .array _ => .err (.assignFailed s to' rhs [])
      | .lit _ => .err (.assignFailed s to' rhs [])
      | _ => handle_type_lit r to' rhs rest s errors missing_fields

termination_by (sizeElems ms + rhs.size + 1, 0)
decreasing_by
  all_goals simp_wf
  all_goals
    first
    | exact Prod.Lex.right _ (by omega)
    | (apply Prod.Lex.left
       (try subst hm)
       (try subst hrm)
       (try have g1 := size_ge_of_normalize_eq hT)
       (try have g2 := size_ge_of_normalize_eq hR)
       simp only [Ty.size, esize_property, esize_method, esize_call,
         esize_constructorEl, esize_index, sizeList, sizeElems, sizeOpt] at *
       intros
       omega)

/-- The scan of the right-hand members for one keyed left member `m`. -/
def scanKeyed (r : Rule) (m : TypeElement) (l_key : Expr)
    (rms : List TypeElement) (s : Nat) : ScanR :=
  match rms with
  | [] => .nomatch
  | rm :: rest =>
      match rm.key with
      | some r_key =>
          if keyEq l_key r_key then
            match hm : m, hrm : rm with
            | .property _ _ la, .property _ _ ra =>
                (match assign_inner r (tyOr la) (tyOr ra) s with
                 | .ok => .matched
                 | .err e => .failedR (.err e)
                 | .unimpl msg => .failedR (.unimpl msg))
            | .method _, .method _ =>
                .failedR (.unimpl "assignment: method property in type literal")
            | _, _ => scanKeyed r m l_key rest s
          else scanKeyed r m l_key rest s
      | none => scanKeyed r m l_key rest s

termination_by (m.esize + sizeElems rms + 1, 0)
decreasing_by
  all_goals simp_wf
  all_goals
    first
    | exact Prod.Lex.right _ (by omega)
    | (apply Prod.Lex.left
       (try subst hm)
       (try subst hrm)
       (try have g1 := size_ge_of_normalize_eq hT)
       (try have g2 := size_ge_of_normalize_eq hR)
       simp only [Ty.size, esize_property, esize_method, esize_call,
         esize_constructorEl, esize_index, sizeList, sizeElems, sizeOpt] at *
       intros
       omega)

/-- The element-wise loop of the tuple/tuple rule (`zip`, with the
undefined escape hatch on an `Err`). -/
def tupleLoop (r : Rule) (ls rts : List Ty) (s : Nat) : AResult :=
  match ls, rts with
  | l :: ls2, rt :: rts2 =>
      (match assign_inner r l rt s with
       | .ok => tupleLoop r ls2 rts2 s
       | .err e =>
           (match Ty.normalize rt with
            | .keyword .tsUndefinedKeyword => tupleLoop r ls2 rts2 s
            | _ => .err e)
       | .unimpl msg => .unimpl msg)
  | _, _ => .ok

termination_by (sizeList ls + sizeList rts + 1, 0)
decreasing_by
  all_goals simp_wf
  all_goals
    first
    | exact Prod.Lex.right _ (by omega)
    | (apply Prod.Lex.left
       (try subst hm)
       (try subst hrm)
       (try have g1 := size_ge_of_normalize_eq hT)
       (try have g2 := size_ge_of_normalize_eq hR)
       simp only [Ty.size, esize_property, esize_method, esize_call,
         esize_constructorEl, esize_index, sizeList, sizeElems, sizeOpt] at *
       intros
       omega)

/-- The loop of the array-from-tuple rule (`?` on each element). -/
def arrayTupleLoop (r : Rule) (elem_type : Ty) (ts : List Ty) (s : Nat) : AResult :=
  match ts with
  | [] => .ok
  | t :: rest =>
      match assign_inner r elem_type t s with
      | .ok => arrayTupleLoop r elem_type rest s
      | .err e => .err e
      | .unimpl msg => .unimpl msg

termination_by (elem_type.size + sizeList ts + 1, 0)
decreasing_by
  all_goals simp_wf
  all_goals
    first
    | exact Prod.Lex.right _ (by omega)
    | (apply Prod.Lex.left
       (try subst hm)
       (try subst hrm)
       (try have g1 := size_ge_of_normalize_eq hT)
       (try have g2 := size_ge_of_normalize_eq hR)
       simp only [Ty.size, esize_property, esize_method, esize_call,
         esize_constructorEl, esize_index, sizeList, sizeElems, sizeOpt] at *
       intros
       omega)

/-- The arm results of the union-on-the-right rule, in order. -/
def mapAssignR (r : Rule) (to' : Ty) (arms : List Ty) (s : Nat) : List AResult :=
  match arms with
  | [] => []
  | a :: rest => assign_inner r to' a s :: mapAssignR r to' rest s

termination_by (to'.size + sizeList arms + 1, 0)
decreasing_by
  all_goals simp_wf
  all_goals
    first
    | exact Prod.Lex.right _ (by omega)
    | (apply Prod.Lex.left
       (try subst hm)
       (try subst hrm)
       (try have g1 := size_ge_of_normalize_eq hT)
       (try have g2 := size_ge_of_normalize_eq hR)
       simp only [Ty.size, esize_property, esize_method, esize_call,
         esize_constructorEl, esize_index, sizeList, sizeElems, sizeOpt] at *
       intros
       omega)

/-- The arm results of the union/intersection-on-the-left rules, in order. -/
def mapAssignL (r : Rule) (arms : List Ty) (rhs : Ty) (s : Nat) : List AResult :=
  match arms with
  | [] => []
  | a :: rest => assign_inner r a rhs s :: mapAssignL r rest rhs s
termination_by (sizeList arms + rhs.size + 1, 0)
decreasing_by
  all_goals simp_wf
  all_goals
    first
    | exact Prod.Lex.right _ (by omega)
    | (apply Prod.Lex.left
       (try subst hm)
       (try subst hrm)
       (try have g1 := size_ge_of_normalize_eq hT)
       (try have g2 := size_ge_of_normalize_eq hR)
       simp only [Ty.size, esize_property, esize_method, esize_call,
         esize_constructorEl, esize_index, sizeList, sizeElems, sizeOpt] at *
       intros
       omega)
end

/-- `assign` from `assign.rs` (lines 15–26): runs `assign_inner` and wraps a
non-`AssignFailed` error in an `AssignFailed` root; an `AssignFailed` passes
through unchanged.  (`map_err` does not touch `Ok`, and a panic unwinds.) -/
def assign (r : Rule) (left right : Ty) (span : Nat) : AResult :=
  match assign_inner r left right span with
  | .err e =>
      .err (match e with
            | .assignFailed _ _ _ _ => e
            | _ => .assignFailed span left right [e])
  | res => res

/-! Phase lemmas: how one `assign` query steps through Phase A (special
cases), Phase B (tops on the left), the rules keyed on the right, and the
rules keyed on the left. -/

/-- The public wrapper succeeds exactly when the inner procedure does. -/
theorem assign_ok_iff (r : Rule) (L R : Ty) (s : Nat) :
    assign r L R s = .ok ↔ assign_inner r L R s = .ok := by
  unfold assign
  cases h : assign_inner r L R s <;> simp

def isTopKw : Ty → Bool
  | .keyword .tsAnyKeyword => true
  | .keyword .tsUnknownKeyword => true
  | _ => false

def isKwOrIface : Ty → Bool
  | .keyword _ => true
  | .interface _ _ _ => true
  | _ => false

/-- The shapes of a normalized right side that the right-keyed rules decide
without falling through to the left-keyed rules. -/
def decidedByRhs (r : Rule) : Ty → Bool
  | .keyword .tsUndefinedKeyword => !r.strict_null_checks
  | .keyword .tsNullKeyword => !r.strict_null_checks
  | .union _ => true
  | .keyword .tsAnyKeyword => true
  | .keyword .tsUnknownKeyword => true
  | .param _ _ _ => true
  | .enum _ _ => true
  | _ => false

theorem specialCaseStep_none_left {to' : Ty} {kwd : TsKeywordTypeKind}
    {iname : String} {rhs : Ty} {s : Nat}
    (h : isKwOrIface to'.normalize = false) :
    specialCaseStep kwd iname to' rhs s = none := by
  unfold specialCaseStep
  cases hto : to'.normalize <;> simp_all [isKwOrIface]

theorem specialCase_none_left {to' : Ty} (rhs : Ty) (s : Nat)
    (h : isKwOrIface to'.normalize = false) :
    specialCase to' rhs s = none := by
  unfold specialCase
  rw [specialCaseStep_none_left h, specialCaseStep_none_left h,
    specialCaseStep_none_left h]
  rfl

theorem specialCaseStep_none_left_kw {to' : Ty} {k0 kwd : TsKeywordTypeKind}
    {iname : String} {rhs : Ty} {s : Nat}
    (hto : to'.normalize = .keyword k0) (hne : k0 ≠ kwd) :
    specialCaseStep kwd iname to' rhs s = none := by
  unfold specialCaseStep
  rw [hto]
  simp [hne]

theorem specialCase_none_left_kw {to' : Ty} {k0 : TsKeywordTypeKind}
    (rhs : Ty) (s : Nat) (hto : to'.normalize = .keyword k0)
    (hb : k0 ≠ .tsBooleanKeyword) (hs : k0 ≠ .tsStringKeyword)
    (hn : k0 ≠ .tsNumberKeyword) :
    specialCase to' rhs s = none := by
  unfold specialCase
  rw [specialCaseStep_none_left_kw hto hb, specialCaseStep_none_left_kw hto hs,
    specialCaseStep_none_left_kw hto hn]
  rfl

theorem specialCaseStep_none_right {rhs : Ty} {kwd : TsKeywordTypeKind}
    {iname : String} {to' : Ty} {s : Nat}
    (h : isKwOrIface (Ty.normalize (generalize_lit rhs)) = false) :
    specialCaseStep kwd iname to' rhs s = none := by
  unfold specialCaseStep
  cases hto : to'.normalize <;>
    cases hg : Ty.normalize (generalize_lit rhs) <;>
      simp_all [isKwOrIface]

theorem specialCase_none_right {rhs : Ty} (to' : Ty) (s : Nat)
    (h : isKwOrIface (Ty.normalize (generalize_lit rhs)) = false) :
    specialCase to' rhs s = none := by
  unfold specialCase
  rw [specialCaseStep_none_right h, specialCaseStep_none_right h,
    specialCaseStep_none_right h]
  rfl

theorem specialCaseStep_none_right_kw {rhs : Ty} {k0 kwd : TsKeywordTypeKind}
    {iname : String} {to' : Ty} {s : Nat}
    (hg : Ty.normalize (generalize_lit rhs) = .keyword k0) (hne : k0 ≠ kwd) :
    specialCaseStep kwd iname to' rhs s = none := by
  unfold specialCaseStep
  cases hto : to'.normalize <;> rw [hg] <;> simp_all

theorem specialCase_none_right_kw {rhs : Ty} {k0 : TsKeywordTypeKind}
    (to' : Ty) (s : Nat)
    (hg : Ty.normalize (generalize_lit rhs) = .keyword k0)
    (hb : k0 ≠ .tsBooleanKeyword) (hs : k0 ≠ .tsStringKeyword)
    (hn : k0 ≠ .tsNumberKeyword) :
    specialCase to' rhs s = none := by
  unfold specialCase
  rw [specialCaseStep_none_right_kw hg hb, specialCaseStep_none_right_kw hg hs,
    specialCaseStep_none_right_kw hg hn]
  rfl

/-- With no special case and no top keyword on the left, `assign_inner` is
the right-keyed phase. -/
theorem assign_inner_not_top {r : Rule} {to' rhs : Ty} {s : Nat}
    (hsc : specialCase to' rhs s = none)
    (h : isTopKw to'.normalize = false) :
    assign_inner r to' rhs s = assignRhs r to' rhs s := by
  rw [assign_inner.eq_def, hsc]
  cases hto : to'.normalize
  case keyword k => cases k <;> simp_all [isTopKw]
  all_goals simp_all [isTopKw]

/-- With no special case, a top keyword on the left decides the query. -/
theorem assign_inner_top {r : Rule} {to' rhs : Ty} {s : Nat}
    (hsc : specialCase to' rhs s = none)
    (h : isTopKw to'.normalize = true) :
    assign_inner r to' rhs s = .ok := by
  rw [assign_inner.eq_def, hsc]
  cases hto : to'.normalize
  case keyword k => cases k <;> simp_all [isTopKw]
  all_goals simp_all [isTopKw]

/-- A right side that no right-keyed rule decides falls through to the
left-keyed rules. -/
theorem assignRhs_fallthrough {r : Rule} {to' rhs : Ty} {s : Nat}
    (h : decidedByRhs r rhs.normalize = false) :
    assignRhs r to' rhs s = assignLhs r to' rhs s := by
  rw [assignRhs.eq_def]
  split <;> simp_all [decidedByRhs]

set_option maxHeartbeats 2000000 in
/-- A left side normalizing to a type literal runs the structural member
algorithm on its members, whatever the right side is. -/
theorem assignLhs_typeLit {r : Rule} {to' rhs : Ty} {s : Nat} {ms : List TypeElement}
    (hT : to'.normalize = .typeLit ms) :
    assignLhs r to' rhs s = handle_type_lit r to' rhs ms s [] [] := by
  cases rhs
  case keyword k => cases k <;> (simp only [assignLhs]; split <;> simp_all)
  case lit l => cases l <;> (simp only [assignLhs]; split <;> simp_all)
  all_goals (simp only [assignLhs]; split <;> simp_all)

set_option maxHeartbeats 2000000 in
/-- A left side normalizing to an interface runs the structural member
algorithm on its body, whatever the right side is. -/
theorem assignLhs_interface {r : Rule} {to' rhs : Ty} {s : Nat} {nm : String}
    {ext : List Ty} {body : List TypeElement}
    (hT : to'.normalize = .interface nm ext body) :
    assignLhs r to' rhs s = handle_type_lit r to' rhs body s [] [] := by
  cases rhs
  case keyword k => cases k <;> (simp only [assignLhs]; split <;> simp_all)
  case lit l => cases l <;> (simp only [assignLhs]; split <;> simp_all)
  all_goals (simp only [assignLhs]; split <;> simp_all)

def isTupleTy : Ty → Bool
  | .tuple _ => true
  | _ => false

def isBoolRhs : Ty → Bool
  | .keyword .tsBooleanKeyword => true
  | .lit (.bool _) => true
  | _ => false

set_option maxHeartbeats 2000000 in
/-- The left-keyed rule for tuples against a tuple right side: length check,
then the element loop. -/
theorem assignLhs_tuple_tuple {r : Rule} {to' rhs : Ty} {s : Nat}
    {types r_types : List Ty}
    (hT : to'.normalize = .tuple types) (hR : rhs.normalize = .tuple r_types) :
    assignLhs r to' rhs s =
      (if types.length < r_types.length then .err (.assignFailed s to' rhs [])
       else tupleLoop r types r_types s) := by
  cases rhs
  case keyword k => cases k <;> (simp only [assignLhs]; split <;> (try split) <;>
    simp_all [Ty.normalize])
  case lit l => cases l <;> (simp only [assignLhs]; split <;> (try split) <;>
    simp_all [Ty.normalize])
  all_goals (simp only [assignLhs]; split <;> (try split) <;> simp_all [Ty.normalize])

set_option maxHeartbeats 2000000 in
/-- The left-keyed rule for tuples against a non-tuple right side falls
through to Phase E. -/
theorem assignLhs_tuple_other {r : Rule} {to' rhs : Ty} {s : Nat}
    {types : List Ty}
    (hT : to'.normalize = .tuple types) (hR : isTupleTy rhs.normalize = false) :
    assignLhs r to' rhs s = phaseE to' rhs := by
  cases rhs
  case keyword k => cases k <;> (simp only [assignLhs]; split <;> (try split) <;>
    simp_all [Ty.normalize, isTupleTy])
  case lit l => cases l <;> (simp only [assignLhs]; split <;> (try split) <;>
    simp_all [Ty.normalize, isTupleTy])
  all_goals (simp only [assignLhs]; split <;> (try split) <;>
    simp_all [Ty.normalize, isTupleTy])

set_option maxHeartbeats 2000000 in
/-- The left-keyed rule for type predicates: `boolean` or a boolean literal
on the right succeeds. -/
theorem assignLhs_predicate_ok {r : Rule} {to' rhs : Ty} {s : Nat} {pn : String} {pt : Ty}
    (hT : to'.normalize = .predicate pn pt) (hR : isBoolRhs rhs.normalize = true) :
    assignLhs r to' rhs s = .ok := by
  cases rhs
  case keyword k => cases k <;> (simp only [assignLhs]; split <;> (try split) <;>
    simp_all [Ty.normalize, isBoolRhs])
  case lit l => cases l <;> (simp only [assignLhs]; split <;> (try split) <;>
    simp_all [Ty.normalize, isBoolRhs])
  all_goals (simp only [assignLhs]; split <;> (try split) <;>
    simp_all [Ty.normalize, isBoolRhs])

set_option maxHeartbeats 2000000 in
/-- The left-keyed rule for type predicates against any other right side
falls through to Phase E. -/
theorem assignLhs_predicate_other {r : Rule} {to' rhs : Ty} {s : Nat} {pn : String} {pt : Ty}
    (hT : to'.normalize = .predicate pn pt) (hR : isBoolRhs rhs.normalize = false) :
    assignLhs r to' rhs s = phaseE to' rhs := by
  cases rhs
  case keyword k => cases k <;> (simp only [assignLhs]; split <;> (try split) <;>
    simp_all [Ty.normalize, isBoolRhs])
  case lit l => cases l <;> (simp only [assignLhs]; split <;> (try split) <;>
    simp_all [Ty.normalize, isBoolRhs])
  all_goals (simp only [assignLhs]; split <;> (try split) <;>
    simp_all [Ty.normalize, isBoolRhs])

theorem mapAssignR_eq (r : Rule) (to' : Ty) (arms : List Ty) (s : Nat) :
    mapAssignR r to' arms s = arms.map fun a => assign_inner r to' a s := by
  induction arms <;> simp_all [mapAssignR]

theorem mapAssignL_eq (r : Rule) (arms : List Ty) (rhs : Ty) (s : Nat) :
    mapAssignL r arms rhs s = arms.map fun a => assign_inner r a rhs s := by
  induction arms <;> simp_all [mapAssignL]

/-- A list of arm results has no panic and no error exactly when every arm
succeeded. -/
theorem all_ok_state (rs : List AResult) :
    (firstUnimpl rs = none ∧ errsOf rs = []) ↔ ∀ x ∈ rs, x = .ok := by
  induction rs with
  | nil => simp [firstUnimpl, errsOf]
  | cons x xs ih => cases x <;> simp_all [firstUnimpl, errsOf]

/-- An empty member list passes the structural member algorithm. -/
theorem handle_type_lit_nil (r : Rule) (to' rhs : Ty) (s : Nat) :
    handle_type_lit r to' rhs [] s [] [] = .ok := by
  simp [handle_type_lit]

/-- C2: every failure of the public `assign` is rooted at an `AssignFailed`:
a non-`AssignFailed` inner error is wrapped in
`AssignFailed{L, R, loc, causes: [inner]}`, and an inner `AssignFailed` is
returned unchanged. -/
theorem claim_C2_uniform_error_root (r : Rule) (L R : Ty) (s : Nat) :
    (∀ e, assign r L R s = .err e → e.isAssignFailed = true) ∧
    (∀ e, assign_inner r L R s = .err e →
      (e.isAssignFailed = true → assign r L R s = .err e) ∧
      (e.isAssignFailed = false →
        assign r L R s = .err (.assignFailed s L R [e]))) := by
  unfold assign
  cases h : assign_inner r L R s with
  | ok => simp
  | unimpl m => simp
  | err e => cases e <;> simp [Error.isAssignFailed]

/-- C2 witness: a concrete failing query; the inner error is already an
`AssignFailed` and is returned unchanged. -/
theorem claim_C2_uniform_error_root_witness :
    assign ⟨true⟩ (.keyword .tsStringKeyword) (.keyword .tsNumberKeyword) 0 =
      .err (.assignFailed 0 (.keyword .tsStringKeyword) (.keyword .tsNumberKeyword) []) := by
  have h : assign_inner ⟨true⟩ (.keyword .tsStringKeyword) (.keyword .tsNumberKeyword) 0 =
      .err (.assignFailed 0 (.keyword .tsStringKeyword) (.keyword .tsNumberKeyword) []) := by
    simp [assign_inner.eq_def, assignRhs.eq_def, assignLhs, specialCase,
      specialCaseStep, Ty.normalize, generalize_lit]
  exact ((claim_C2_uniform_error_root ⟨true⟩ (.keyword .tsStringKeyword)
    (.keyword .tsNumberKeyword) 0).2 _ h).1 rfl

/-- C4: the primitive–wrapper asymmetry, for all three pairs
`(boolean, Boolean)`, `(string, String)`, `(number, Number)` and any
interface body: the primitive keyword is assignable to the wrapper
interface; the wrapper interface assigned to the primitive keyword fails
with `AssignedWrapperToPrimitive` (which the public `assign` then roots
under `AssignFailed`). -/
theorem claim_C4_primitive_wrapper_asymmetry (r : Rule) (s : Nat)
    (ext : List Ty) (body : List TypeElement) :
    (assign r (.interface "Boolean" ext body) (.keyword .tsBooleanKeyword) s = .ok ∧
     assign_inner r (.keyword .tsBooleanKeyword) (.interface "Boolean" ext body) s =
       .err (.assignedWrapperToPrimitive s) ∧
     assign r (.keyword .tsBooleanKeyword) (.interface "Boolean" ext body) s =
       .err (.assignFailed s (.keyword .tsBooleanKeyword)
         (.interface "Boolean" ext body) [.assignedWrapperToPrimitive s])) ∧
    (assign r (.interface "String" ext body) (.keyword .tsStringKeyword) s = .ok ∧
     assign_inner r (.keyword .tsStringKeyword) (.interface "String" ext body) s =
       .err (.assignedWrapperToPrimitive s) ∧
     assign r (.keyword .tsStringKeyword) (.interface "String" ext body) s =
       .err (.assignFailed s (.keyword .tsStringKeyword)
         (.interface "String" ext body) [.assignedWrapperToPrimitive s])) ∧
    (assign r (.interface "Number" ext body) (.keyword .tsNumberKeyword) s = .ok ∧
     assign_inner r (.keyword .tsNumberKeyword) (.interface "Number" ext body) s =
       .err (.assignedWrapperToPrimitive s) ∧
     assign r (.keyword .tsNumberKeyword) (.interface "Number" ext body) s =
       .err (.assignFailed s (.keyword .tsNumberKeyword)
         (.interface "Number" ext body) [.assignedWrapperToPrimitive s])) := by
  refine ⟨⟨?_, ?_, ?_⟩, ⟨?_, ?_, ?_⟩, ⟨?_, ?_, ?_⟩⟩ <;>
    simp [assign, assign_inner.eq_def, specialCase, specialCaseStep,
      Ty.normalize, generalize_lit]

theorem isTopKw_cases {t : Ty} (h : isTopKw t = true) :
    t = .keyword .tsAnyKeyword ∨ t = .keyword .tsUnknownKeyword := by
  cases t <;> simp_all [isTopKw]
  case keyword k => cases k <;> simp_all [isTopKw]

theorem normalize_union_of_two {alts : List Ty} (h2 : 2 ≤ alts.length) :
    (Ty.union alts).normalize = .union alts := by
  match alts, h2 with
  | a :: b :: rest, _ => rfl

/-- The union-on-the-right rule: a panicking arm panics the query. -/
theorem assignRhs_union_unimpl {r : Rule} {to' : Ty} {alts : List Ty} {s : Nat} {m : String}
    (h2 : 2 ≤ alts.length)
    (hu : firstUnimpl (mapAssignR r to' alts s) = some m) :
    assignRhs r to' (.union alts) s = .unimpl m := by
  have hn := normalize_union_of_two h2
  rw [assignRhs.eq_def]
  split <;> simp_all

/-- The union-on-the-right rule: all arms accepted. -/
theorem assignRhs_union_ok {r : Rule} {to' : Ty} {alts : List Ty} {s : Nat}
    (h2 : 2 ≤ alts.length)
    (hu : firstUnimpl (mapAssignR r to' alts s) = none)
    (he : errsOf (mapAssignR r to' alts s) = []) :
    assignRhs r to' (.union alts) s = .ok := by
  have hn := normalize_union_of_two h2
  rw [assignRhs.eq_def]
  split <;> simp_all

/-- The union-on-the-right rule: some arm erred (and none panicked), so the
result is a `UnionError` carrying the errors of all failing arms. -/
theorem assignRhs_union_err {r : Rule} {to' : Ty} {alts : List Ty} {s : Nat}
    {e : Error} {es : List Error} (h2 : 2 ≤ alts.length)
    (hu : firstUnimpl (mapAssignR r to' alts s) = none)
    (he : errsOf (mapAssignR r to' alts s) = e :: es) :
    assignRhs r to' (.union alts) s = .err (.unionError s (e :: es)) := by
  have hn := normalize_union_of_two h2
  rw [assignRhs.eq_def]
  split <;> simp_all

/-- C1: union on the right is a demand.  `assign(L, Union alts, loc)`
succeeds iff `assign(L, a, loc)` succeeds for every alternative, and when at
least one alternative fails (and none panics) the inner result is a
`UnionError` carrying the errors of all failing alternatives, in arm
order. -/
theorem claim_C1_union_right_demand (r : Rule) (L : Ty) (alts : List Ty) (s : Nat)
    (h2 : 2 ≤ alts.length) :
    (assign r L (.union alts) s = .ok ↔ ∀ a ∈ alts, assign r L a s = .ok) ∧
    (firstUnimpl (alts.map fun a => assign_inner r L a s) = none →
     ∀ e es, errsOf (alts.map fun a => assign_inner r L a s) = e :: es →
     assign_inner r L (.union alts) s = .err (.unionError s (e :: es))) := by
  have hg : isKwOrIface ((generalize_lit (Ty.union alts)).normalize) = false := by
    rw [show generalize_lit (Ty.union alts) = Ty.union alts from rfl,
      normalize_union_of_two h2]
    rfl
  have hsc : specialCase L (.union alts) s = none := specialCase_none_right L s hg
  have hmap : mapAssignR r L alts s = alts.map fun a => assign_inner r L a s :=
    mapAssignR_eq r L alts s
  by_cases htop : isTopKw L.normalize = true
  · have harm : ∀ (a : Ty), assign_inner r L a s = .ok := by
      intro a
      have hsca : specialCase L a s = none := by
        rcases isTopKw_cases htop with h | h
        · exact specialCase_none_left_kw a s h (by simp) (by simp) (by simp)
        · exact specialCase_none_left_kw a s h (by simp) (by simp) (by simp)
      exact assign_inner_top hsca htop
    have hok : assign_inner r L (.union alts) s = .ok := assign_inner_top hsc htop
    constructor
    · constructor
      · intro _ a _
        exact (assign_ok_iff r L a s).mpr (harm a)
      · intro _
        exact (assign_ok_iff r L (.union alts) s).mpr hok
    · intro _ e es he
      exfalso
      have hall : ∀ x ∈ alts.map (fun a => assign_inner r L a s), x = .ok := by
        intro x hx
        rcases List.mem_map.mp hx with ⟨a, _, rfl⟩
        exact harm a
      have h0 := (all_ok_state _).mpr hall
      have : (e :: es : List Error) = [] := he.symm.trans h0.2
      simp at this
  · have hnt : isTopKw L.normalize = false := by simpa using htop
    have hstep : assign_inner r L (.union alts) s = assignRhs r L (.union alts) s :=
      assign_inner_not_top hsc hnt
    constructor
    · rw [assign_ok_iff, hstep]
      constructor
      · intro hok a ha
        rw [assign_ok_iff]
        cases hu : firstUnimpl (mapAssignR r L alts s) with
        | some m =>
          rw [assignRhs_union_unimpl h2 hu] at hok
          cases hok
        | none =>
          cases he : errsOf (mapAssignR r L alts s) with
          | cons e es =>
            rw [assignRhs_union_err h2 hu he] at hok
            cases hok
          | nil =>
            have hall := (all_ok_state _).mp ⟨hu, he⟩
            exact hall _ (by rw [hmap]; exact List.mem_map_of_mem _ ha)
      · intro hall
        have hall' : ∀ x ∈ mapAssignR r L alts s, x = .ok := by
          rw [hmap]
          intro x hx
          rcases List.mem_map.mp hx with ⟨a, ha, rfl⟩
          exact (assign_ok_iff r L a s).mp (hall a ha)
        obtain ⟨hu, he⟩ := (all_ok_state _).mpr hall'
        exact assignRhs_union_ok h2 hu he
    · intro hu e es he
      rw [hstep]
      exact assignRhs_union_err h2 (by rw [hmap]; exact hu) (by rw [hmap]; exact he)

/-- C1 witness: `string ← string | number` fails and the `UnionError`
carries exactly the failing arm's error. -/
theorem claim_C1_union_right_demand_witness :
    assign_inner ⟨true⟩ (.keyword .tsStringKeyword)
      (.union [.keyword .tsStringKeyword, .keyword .tsNumberKeyword]) 0 =
      .err (.unionError 0
        [.assignFailed 0 (.keyword .tsStringKeyword) (.keyword .tsNumberKeyword) []]) := by
  have e1 : assign_inner ⟨true⟩ (.keyword .tsStringKeyword) (.keyword .tsStringKeyword) 0 =
      .ok := by
    simp [assign_inner.eq_def, assignRhs.eq_def, assignLhs, specialCase,
      specialCaseStep, Ty.normalize, generalize_lit]
  have e2 : assign_inner ⟨true⟩ (.keyword .tsStringKeyword) (.keyword .tsNumberKeyword) 0 =
      .err (.assignFailed 0 (.keyword .tsStringKeyword) (.keyword .tsNumberKeyword) []) := by
    simp [assign_inner.eq_def, assignRhs.eq_def, assignLhs, specialCase,
      specialCaseStep, Ty.normalize, generalize_lit]
  refine (claim_C1_union_right_demand ⟨true⟩ (.keyword .tsStringKeyword)
    [.keyword .tsStringKeyword, .keyword .tsNumberKeyword] 0 (by simp)).2 ?_ _ _ ?_
  · simp [e1, e2, firstUnimpl]
  · simp [e1, e2, errsOf]

/-- C6 counterexample: the claim "assign(T, unknown) succeeds iff
T ∈ {any, undefined}" fails at T = `unknown` itself: the query succeeds
(Phase B: `unknown` on the left accepts everything), yet `unknown` is
neither `any` nor `undefined`. -/
theorem claim_C6_counterexample :
    assign ⟨true⟩ (.keyword .tsUnknownKeyword) (.keyword .tsUnknownKeyword) 0 = .ok ∧
    Ty.keyword .tsUnknownKeyword ≠ .keyword .tsAnyKeyword ∧
    Ty.keyword .tsUnknownKeyword ≠ .keyword .tsUndefinedKeyword := by
  refine ⟨?_, by simp, by simp⟩
  simp [assign, assign_inner.eq_def, specialCase, specialCaseStep,
    Ty.normalize, generalize_lit]

/-- C6 amended: `assign(T, unknown, loc)` succeeds iff `T` normalizes to
`any`, `unknown`, or `undefined`. -/
theorem claim_C6_unknown_asymmetry_amended (r : Rule) (T : Ty) (s : Nat) :
    assign r T (.keyword .tsUnknownKeyword) s = .ok ↔
      (T.normalize = .keyword .tsAnyKeyword ∨
       T.normalize = .keyword .tsUnknownKeyword ∨
       T.normalize = .keyword .tsUndefinedKeyword) := by
  have hsc : specialCase T (.keyword .tsUnknownKeyword) s = none :=
    specialCase_none_right_kw T s rfl (by simp) (by simp) (by simp)
  rw [assign_ok_iff]
  by_cases htop : isTopKw T.normalize = true
  · rw [assign_inner_top hsc htop]
    rcases isTopKw_cases htop with h | h <;> simp [h]
  · have hnt : isTopKw T.normalize = false := by simpa using htop
    rw [assign_inner_not_top hsc hnt, assignRhs.eq_def]
    simp only [Ty.normalize]
    cases hT : T.normalize
    · rename_i k
      cases k <;> simp_all [Ty.is_keyword, isTopKw]
    all_goals simp_all [Ty.is_keyword, isTopKw]

/-- C3 counterexample: with `strict_null_checks = true`,
`assign({}, null, loc)` succeeds (the empty type literal has no member to
check), although `{}` is neither `any`, `unknown`, nor the `null`
keyword — so strict mode does not restrict null-assignability to those
three targets. -/
theorem claim_C3_counterexample :
    assign ⟨true⟩ (.typeLit []) (.keyword .tsNullKeyword) 0 = .ok ∧
    Ty.typeLit [] ≠ .keyword .tsAnyKeyword ∧
    Ty.typeLit [] ≠ .keyword .tsUnknownKeyword ∧
    Ty.typeLit [] ≠ .keyword .tsNullKeyword := by
  refine ⟨?_, by simp, by simp, by simp⟩
  simp [assign, assign_inner.eq_def, assignRhs.eq_def, assignLhs,
    handle_type_lit, specialCase, specialCaseStep, Ty.normalize, generalize_lit]

/-- C3 amended: with `strict_null_checks = false`, `null` and `undefined`
on the right are assignable to every type.  With it true, among keyword
targets they succeed exactly for `any`, `unknown`, and the matching
keyword; non-keyword targets may still accept them through their own rules
(e.g. an empty type literal, or a union with a matching arm). -/
theorem claim_C3_strict_null_flag_amended :
    (∀ (T : Ty) (s : Nat), assign ⟨false⟩ T (.keyword .tsNullKeyword) s = .ok) ∧
    (∀ (T : Ty) (s : Nat), assign ⟨false⟩ T (.keyword .tsUndefinedKeyword) s = .ok) ∧
    (∀ (k : TsKeywordTypeKind) (s : Nat),
      assign ⟨true⟩ (.keyword k) (.keyword .tsNullKeyword) s = .ok ↔
        (k = .tsAnyKeyword ∨ k = .tsUnknownKeyword ∨ k = .tsNullKeyword)) ∧
    (∀ (k : TsKeywordTypeKind) (s : Nat),
      assign ⟨true⟩ (.keyword k) (.keyword .tsUndefinedKeyword) s = .ok ↔
        (k = .tsAnyKeyword ∨ k = .tsUnknownKeyword ∨ k = .tsUndefinedKeyword)) := by
  refine ⟨?_, ?_, ?_, ?_⟩
  · intro T s
    have hsc : specialCase T (.keyword .tsNullKeyword) s = none :=
      specialCase_none_right_kw T s rfl (by simp) (by simp) (by simp)
    rw [assign_ok_iff]
    by_cases htop : isTopKw T.normalize = true
    · exact assign_inner_top hsc htop
    · have hnt : isTopKw T.normalize = false := by simpa using htop
      rw [assign_inner_not_top hsc hnt, assignRhs.eq_def]
      simp [Ty.normalize]
  · intro T s
    have hsc : specialCase T (.keyword .tsUndefinedKeyword) s = none :=
      specialCase_none_right_kw T s rfl (by simp) (by simp) (by simp)
    rw [assign_ok_iff]
    by_cases htop : isTopKw T.normalize = true
    · exact assign_inner_top hsc htop
    · have hnt : isTopKw T.normalize = false := by simpa using htop
      rw [assign_inner_not_top hsc hnt, assignRhs.eq_def]
      simp [Ty.normalize]
  · intro k s
    cases k <;>
      simp [assign, assign_inner.eq_def, assignRhs.eq_def, assignLhs,
        specialCase, specialCaseStep, Ty.normalize, generalize_lit,
        Ty.is_keyword, phaseE, eqINS]
  · intro k s
    cases k <;>
      simp [assign, assign_inner.eq_def, assignRhs.eq_def, assignLhs,
        specialCase, specialCaseStep, Ty.normalize, generalize_lit,
        Ty.is_keyword, phaseE, eqINS]

/-- C10 (implicit): an empty type literal on the left accepts every right
side that reaches the left-keyed structural rule (right side, after
normalization, not a union / `any` / `unknown` / type parameter / enum, and
not `null`/`undefined` under non-strict mode) — including tuples, arrays
and literals, because their outright-failure cases are only checked per
left member and an empty member list skips every check. -/
theorem claim_C10_empty_typelit_accepts (r : Rule) (R : Ty) (s : Nat)
    (h : decidedByRhs r R.normalize = false) :
    assign r (.typeLit []) R s = .ok := by
  have hsc : specialCase (.typeLit []) R s = none :=
    specialCase_none_left R s rfl
  have hTL : (Ty.typeLit ([] : List TypeElement)).normalize = Ty.typeLit [] := rfl
  rw [assign_ok_iff, assign_inner_not_top hsc rfl, assignRhs_fallthrough h,
    assignLhs_typeLit hTL, handle_type_lit_nil]

/-- C10 witness: `{} ← [number]` (a tuple) succeeds under strict mode. -/
theorem claim_C10_empty_typelit_accepts_witness :
    assign ⟨true⟩ (.typeLit []) (.tuple [.keyword .tsNumberKeyword]) 0 = .ok :=
  claim_C10_empty_typelit_accepts ⟨true⟩ (.tuple [.keyword .tsNumberKeyword]) 0 rfl

/-- C9 counterexample: the claim "a predicate target accepts exactly the
boolean keyword and boolean literals" fails: a right side equal to the
predicate itself (reaching the left-keyed rules, and neither `boolean` nor
a boolean literal) is accepted through the final equality fallback. -/
theorem claim_C9_counterexample :
    assign ⟨true⟩ (.predicate "x" (.keyword .tsStringKeyword))
      (.predicate "x" (.keyword .tsStringKeyword)) 0 = .ok ∧
    isBoolRhs (Ty.predicate "x" (.keyword .tsStringKeyword)).normalize = false ∧
    decidedByRhs ⟨true⟩ (Ty.predicate "x" (.keyword .tsStringKeyword)).normalize = false := by
  refine ⟨?_, rfl, rfl⟩
  simp [assign, assign_inner.eq_def, assignRhs.eq_def, assignLhs, specialCase,
    specialCaseStep, Ty.normalize, generalize_lit, phaseE, eqINS]

/-- C9 amended: for a right side `R` that reaches the left-keyed rules, a
predicate target accepts `R` iff `R` normalizes to the boolean keyword or a
boolean literal, or `R` is equal to the predicate ignoring names and spans
(the Phase-E fallback); otherwise the query does not succeed (it raises the
internal Unimplemented signal rather than an ordinary error). -/
theorem claim_C9_predicate_target_amended (r : Rule) (pn : String) (pt : Ty)
    (R : Ty) (s : Nat) (hdec : decidedByRhs r R.normalize = false) :
    assign r (.predicate pn pt) R s = .ok ↔
      (isBoolRhs R.normalize = true ∨ eqINS (.predicate pn pt) R = true) := by
  have hsc : specialCase (.predicate pn pt) R s = none :=
    specialCase_none_left R s rfl
  have hP : (Ty.predicate pn pt).normalize = Ty.predicate pn pt := rfl
  rw [assign_ok_iff, assign_inner_not_top hsc rfl, assignRhs_fallthrough hdec]
  by_cases hb : isBoolRhs R.normalize = true
  · rw [assignLhs_predicate_ok hP hb]
    simp [hb]
  · have hb' : isBoolRhs R.normalize = false := by simpa using hb
    rw [assignLhs_predicate_other hP hb']
    unfold phaseE
    cases heq : eqINS (.predicate pn pt) R <;> simp [heq, hb']

/-- C9 witness: the boolean keyword reaches the left-keyed rules and is
accepted by a predicate target. -/
theorem claim_C9_predicate_target_amended_witness :
    decidedByRhs ⟨true⟩ (Ty.keyword .tsBooleanKeyword).normalize = false ∧
    assign ⟨true⟩ (.predicate "x" (.keyword .tsStringKeyword))
      (.keyword .tsBooleanKeyword) 0 = .ok :=
  ⟨rfl, (claim_C9_predicate_target_amended ⟨true⟩ "x" (.keyword .tsStringKeyword)
    (.keyword .tsBooleanKeyword) 0 rfl).mpr (Or.inl rfl)⟩

/-- C5: evaluation of the code at the failing input.  An enum whose single
member has the string initializer `"a"` is classified as numeric
(`check_init` never records any initializer kind), so assigning it to
`string` fails with the inner `string ← number` error, and assigning it to
`number` succeeds — where the claim (and the spec) expect the reduction to
go to `string`. -/
theorem claim_C5_enum_classification_code_eval :
    assign ⟨false⟩ (.keyword .tsStringKeyword)
      (.enum "E" [⟨"A", some (.str "a")⟩]) 0 =
      .err (.assignFailed 0 (.keyword .tsStringKeyword) (.keyword .tsNumberKeyword) []) ∧
    assign ⟨false⟩ (.keyword .tsNumberKeyword)
      (.enum "E" [⟨"A", some (.str "a")⟩]) 0 = .ok := by
  constructor <;>
    simp [assign, assign_inner.eq_def, assignRhs.eq_def, assignLhs, specialCase,
      specialCaseStep, Ty.normalize, generalize_lit, check_init]

/-- The tuple element loop succeeds iff every aligned pair either assigns
successfully or fails with an ordinary error while the right element is the
`undefined` keyword (the escape hatch); a panicking pair always aborts. -/
theorem tupleLoop_ok_iff (r : Rule) (ls rts : List Ty) (s : Nat) :
    tupleLoop r ls rts s = .ok ↔
      ∀ p ∈ ls.zip rts, assign_inner r p.1 p.2 s = .ok ∨
        ((∃ e, assign_inner r p.1 p.2 s = .err e) ∧
         p.2.normalize = .keyword .tsUndefinedKeyword) := by
  induction ls generalizing rts with
  | nil =>
    cases rts <;> simp [tupleLoop]
  | cons l ls2 ih =>
    cases rts with
    | nil => simp [tupleLoop]
    | cons rt rts2 =>
      cases h : assign_inner r l rt s with
      | ok =>
        simp only [tupleLoop, h]
        rw [ih]
        constructor
        · intro hall p hp
          rcases List.mem_cons.mp hp with rfl | hp2
          · exact Or.inl h
          · exact hall p hp2
        · intro hall p hp
          exact hall p (List.mem_cons_of_mem _ hp)
      | err e =>
        cases hn : rt.normalize with
        | keyword k =>
          cases k <;>
            first
            | (simp only [tupleLoop, h, hn]
               rw [ih]
               constructor
               · intro hall p hp
                 rcases List.mem_cons.mp hp with rfl | hp2
                 · exact Or.inr ⟨⟨e, h⟩, hn⟩
                 · exact hall p hp2
               · intro hall p hp
                 exact hall p (List.mem_cons_of_mem _ hp))
            | (simp only [tupleLoop, h, hn]
               constructor
               · intro hbad
                 cases hbad
               · intro hall
                 rcases hall (l, rt) (List.mem_cons_self _ _) with hok | ⟨_, hun⟩
                 · exact absurd hok (by simp [h])
                 · rw [hn] at hun
                   cases hun)
        | _ =>
          simp only [tupleLoop, h, hn]
          constructor
          · intro hbad
            cases hbad
          · intro hall
            rcases hall (l, rt) (List.mem_cons_self _ _) with hok | ⟨_, hun⟩
            · exact absurd hok (by simp [h])
            · rw [hn] at hun
              cases hun
      | unimpl m =>
        simp only [tupleLoop, h]
        constructor
        · intro hbad
          cases hbad
        · intro hall
          rcases hall (l, rt) (List.mem_cons_self _ _) with hok | ⟨⟨e, he⟩, _⟩
          · exact absurd hok (by simp [h])
          · rw [h] at he
            cases he

/-- C7 counterexample: the right-side `undefined` escape hatch is not
unconditional.  For `Tuple[object] ← Tuple[undefined]` under strict null
checks the lengths are fine and the right element is `undefined`, yet the
query does not succeed: the element assignment `object ← undefined` raises
the internal Unimplemented signal, which the escape hatch (which only
catches ordinary errors) does not intercept. -/
theorem claim_C7_counterexample :
    assign ⟨true⟩ (.tuple [.keyword .tsObjectKeyword])
      (.tuple [.keyword .tsUndefinedKeyword]) 0 = .unimpl "assign" ∧
    (Ty.keyword .tsUndefinedKeyword).normalize = .keyword .tsUndefinedKeyword := by
  refine ⟨?_, rfl⟩
  simp [assign, assign_inner.eq_def, assignRhs.eq_def, assignLhs,
    tupleLoop, specialCase, specialCaseStep, Ty.normalize, generalize_lit,
    phaseE, eqINS]

/-- C7 amended: tuple-to-tuple assignment fails outright when the left
tuple is shorter; otherwise it succeeds iff every aligned pair either
assigns successfully or fails with an ordinary error while the right
element is `undefined` (the escape hatch; an internal Unimplemented signal
on a pair still aborts the query).  Trailing left positions beyond the
right tuple's length are never examined (the loop runs over the zip). -/
theorem claim_C7_tuple_rule_amended (r : Rule) (lts rts : List Ty) (s : Nat) :
    (lts.length < rts.length →
      assign_inner r (.tuple lts) (.tuple rts) s =
        .err (.assignFailed s (.tuple lts) (.tuple rts) [])) ∧
    (rts.length ≤ lts.length →
      (assign r (.tuple lts) (.tuple rts) s = .ok ↔
        ∀ p ∈ lts.zip rts, assign_inner r p.1 p.2 s = .ok ∨
          ((∃ e, assign_inner r p.1 p.2 s = .err e) ∧
           p.2.normalize = .keyword .tsUndefinedKeyword))) := by
  have hsc : specialCase (.tuple lts) (.tuple rts) s = none :=
    specialCase_none_left (.tuple rts) s rfl
  have hTT : (Ty.tuple lts).normalize = Ty.tuple lts := rfl
  have hRT : (Ty.tuple rts).normalize = Ty.tuple rts := rfl
  have hdec : decidedByRhs r (Ty.tuple rts).normalize = false := rfl
  have hstep : assign_inner r (.tuple lts) (.tuple rts) s =
      (if lts.length < rts.length
       then .err (.assignFailed s (.tuple lts) (.tuple rts) [])
       else tupleLoop r lts rts s) := by
    rw [assign_inner_not_top hsc rfl, assignRhs_fallthrough hdec,
      assignLhs_tuple_tuple hTT hRT]
  constructor
  · intro hlen
    rw [hstep, if_pos hlen]
  · intro hlen
    rw [assign_ok_iff, hstep, if_neg (by omega)]
    exact tupleLoop_ok_iff r lts rts s

/-- C7 witness: the length check fires for a shorter left tuple, and the
escape hatch accepts `Tuple[number] ← Tuple[undefined]` under strict null
checks even though `number ← undefined` errs. -/
theorem claim_C7_tuple_rule_amended_witness :
    assign_inner ⟨true⟩ (.tuple []) (.tuple [.keyword .tsNumberKeyword]) 0 =
      .err (.assignFailed 0 (.tuple []) (.tuple [.keyword .tsNumberKeyword]) []) ∧
    assign ⟨true⟩ (.tuple [.keyword .tsNumberKeyword])
      (.tuple [.keyword .tsUndefinedKeyword]) 0 = .ok := by
  constructor
  · exact (claim_C7_tuple_rule_amended ⟨true⟩ [] [.keyword .tsNumberKeyword] 0).1
      (by simp)
  · refine ((claim_C7_tuple_rule_amended ⟨true⟩ [.keyword .tsNumberKeyword]
      [.keyword .tsUndefinedKeyword] 0).2 (by simp)).mpr ?_
    intro p hp
    have hpair : p = (Ty.keyword .tsNumberKeyword, Ty.keyword .tsUndefinedKeyword) := by
      simpa using hp
    subst hpair
    refine Or.inr ⟨⟨.assignFailed 0 (.keyword .tsNumberKeyword)
      (.keyword .tsUndefinedKeyword) [], ?_⟩, rfl⟩
    simp [assign_inner.eq_def, assignRhs.eq_def, assignLhs, specialCase,
      specialCaseStep, Ty.normalize, generalize_lit]

/-- Does some property of `rms` have a key equal to the (property) member
`m`'s key?  (Key-equal members of other kinds do not count: the scan keeps
looking past them, and records `m` as missing if no property matches.) -/
def propKeyMatch (rms : List TypeElement) : TypeElement → Bool
  | .property k _ _ => rms.any fun rm =>
      match rm with
      | .property k2 _ _ => keyEq k k2
      | _ => false
  | _ => false

/-- The member scan for a property whose key-equal right properties all
assign successfully: it matches iff some right property is key-equal, and
never aborts. -/
theorem scanKeyed_spec (r : Rule) (s : Nat) (k : Expr) (o : Bool) (a : Option Ty)
    (rms : List TypeElement)
    (hok : ∀ k2 o2 a2, TypeElement.property k2 o2 a2 ∈ rms → keyEq k k2 = true →
      assign_inner r (tyOr a) (tyOr a2) s = .ok) :
    scanKeyed r (.property k o a) k rms s =
      (if propKeyMatch rms (.property k o a) = true then .matched else .nomatch) := by
  induction rms with
  | nil => simp [scanKeyed, propKeyMatch]
  | cons rm rest ih =>
    have ih' := ih fun k2 o2 a2 h2 => hok k2 o2 a2 (List.mem_cons_of_mem _ h2)
    cases rm with
    | property k2 o2 a2 =>
      cases hk : keyEq k k2 with
      | true =>
        have hass := hok k2 o2 a2 (List.mem_cons_self _ _) hk
        simp [scanKeyed, TypeElement.key, hk, hass, propKeyMatch]
      | false =>
        simp [scanKeyed, TypeElement.key, hk, ih', propKeyMatch]
    | method k2 =>
      cases hk : keyEq k k2 with
      | true => simp [scanKeyed, TypeElement.key, hk, ih', propKeyMatch]
      | false => simp [scanKeyed, TypeElement.key, hk, ih', propKeyMatch]
    | call ps rt => simp [scanKeyed, TypeElement.key, ih', propKeyMatch]
    | constructorEl ps rt => simp [scanKeyed, TypeElement.key, ih', propKeyMatch]
    | index vt => simp [scanKeyed, TypeElement.key, ih', propKeyMatch]

/-- Does some member of `rms` of the same kind as the keyed member `m` have
an equal key?  For a property, a key-equal right property; for a method, a
key-equal right method.  (Key-equal members of other kinds never satisfy the
scan: it keeps looking past them.) -/
def sameKindKeyMatch (rms : List TypeElement) : TypeElement → Bool
  | .property k _ _ => rms.any fun rm =>
      match rm with
      | .property k2 _ _ => keyEq k k2
      | _ => false
  | .method k => rms.any fun rm =>
      match rm with
      | .method k2 => keyEq k k2
      | _ => false
  | _ => false

theorem sameKindKeyMatch_property (rms : List TypeElement) (k : Expr) (o : Bool)
    (a : Option Ty) :
    sameKindKeyMatch rms (.property k o a) = propKeyMatch rms (.property k o a) := rfl

theorem sameKindKeyMatch_method_eq_false {rms : List TypeElement} {k : Expr}
    (hno : ∀ k2, TypeElement.method k2 ∈ rms → keyEq k k2 = false) :
    sameKindKeyMatch rms (.method k) = false := by
  simp only [sameKindKeyMatch, List.any_eq_false]
  intro rm hrm
  cases rm
  case method k2 => simp [hno k2 hrm]
  all_goals simp

/-- The member scan for a method with no key-equal right method: key-equal
members of other kinds are skipped, so the scan reports no match (and never
aborts).  A key-equal right method would instead panic. -/
theorem scanKeyed_method (r : Rule) (s : Nat) (k : Expr) (rms : List TypeElement)
    (hno : ∀ k2, TypeElement.method k2 ∈ rms → keyEq k k2 = false) :
    scanKeyed r (.method k) k rms s = .nomatch := by
  induction rms with
  | nil => simp [scanKeyed]
  | cons rm rest ih =>
    have ih' := ih fun k2 h2 => hno k2 (List.mem_cons_of_mem _ h2)
    cases rm with
    | property k2 o2 a2 =>
      cases hk : keyEq k k2 <;> simp [scanKeyed, TypeElement.key, hk, ih']
    | method k2 =>
      have hk := hno k2 (List.mem_cons_self _ _)
      simp [scanKeyed, TypeElement.key, hk, ih']
    | call ps rt => simp [scanKeyed, TypeElement.key, ih']
    | constructorEl ps rt => simp [scanKeyed, TypeElement.key, ih']
    | index vt => simp [scanKeyed, TypeElement.key, ih']

/-- The structural member loop over keyed left members (properties and
methods) whose matched property pairs all assign successfully and whose
methods have no key-equal right method: it completes, records exactly the
members with no key-equal right member of the same kind as missing, and
reports them through `MissingFields` inside `Errors`. -/
theorem handle_props (r : Rule) (to' : Ty) (rms : List TypeElement) (s : Nat)
    (ms : List TypeElement) (errors : List Error) (missing : List TypeElement)
    (hkeys : ∀ m ∈ ms, (∃ k o a, m = TypeElement.property k o a) ∨
      (∃ k, m = TypeElement.method k))
    (hok : ∀ k o a k2 o2 a2, TypeElement.property k o a ∈ ms →
      TypeElement.property k2 o2 a2 ∈ rms → keyEq k k2 = true →
      assign_inner r (tyOr a) (tyOr a2) s = .ok)
    (hnomm : ∀ k, TypeElement.method k ∈ ms → ∀ k2, TypeElement.method k2 ∈ rms →
      keyEq k k2 = false) :
    handle_type_lit r to' (.typeLit rms) ms s errors missing =
      (if (missing ++ ms.filter fun m => !sameKindKeyMatch rms m).isEmpty
       then (if errors.isEmpty then .ok else .err (.errors s errors))
       else .err (.errors s (errors ++ [.missingFields s
         (missing ++ ms.filter fun m => !sameKindKeyMatch rms m)]))) := by
  induction ms generalizing missing with
  | nil =>
    cases hm : missing.isEmpty <;> cases he : errors.isEmpty <;>
      simp_all [handle_type_lit]
  | cons m rest ih =>
    have hok' : ∀ k0 o0 a0 k2 o2 a2, TypeElement.property k0 o0 a0 ∈ rest →
        TypeElement.property k2 o2 a2 ∈ rms → keyEq k0 k2 = true →
        assign_inner r (tyOr a0) (tyOr a2) s = .ok :=
      fun k0 o0 a0 k2 o2 a2 h1 h2 h3 =>
        hok k0 o0 a0 k2 o2 a2 (List.mem_cons_of_mem _ h1) h2 h3
    have hkeys' : ∀ m2 ∈ rest, (∃ k2 o2 a2, m2 = TypeElement.property k2 o2 a2) ∨
        (∃ k2, m2 = TypeElement.method k2) :=
      fun m2 h2 => hkeys m2 (List.mem_cons_of_mem _ h2)
    have hnomm' : ∀ k0, TypeElement.method k0 ∈ rest →
        ∀ k2, TypeElement.method k2 ∈ rms → keyEq k0 k2 = false :=
      fun k0 h0 k2 h2 => hnomm k0 (List.mem_cons_of_mem _ h0) k2 h2
    rcases hkeys m (List.mem_cons_self _ _) with ⟨k, o, a, rfl⟩ | ⟨k, rfl⟩
    · have hscan := scanKeyed_spec r s k o a rms
        (fun k2 o2 a2 h2 h3 => hok k o a k2 o2 a2 (List.mem_cons_self _ _) h2 h3)
      cases hpm : propKeyMatch rms (.property k o a) with
      | true =>
        simp only [hpm, if_true] at hscan
        simp only [handle_type_lit, Ty.normalize, TypeElement.key, hscan]
        rw [ih _ hkeys' hok' hnomm']
        have hf : List.filter (fun m => !sameKindKeyMatch rms m)
            (TypeElement.property k o a :: rest) =
            List.filter (fun m => !sameKindKeyMatch rms m) rest := by
          simp [List.filter_cons, sameKindKeyMatch_property, hpm]
        rw [hf]
      | false =>
        simp only [hpm, Bool.false_eq_true, if_false] at hscan
        simp only [handle_type_lit, Ty.normalize, TypeElement.key, hscan]
        rw [ih _ hkeys' hok' hnomm']
        have hf : List.filter (fun m => !sameKindKeyMatch rms m)
            (TypeElement.property k o a :: rest) =
            TypeElement.property k o a ::
              List.filter (fun m => !sameKindKeyMatch rms m) rest := by
          simp [List.filter_cons, sameKindKeyMatch_property, hpm]
        rw [hf]
        simp [List.append_assoc]
    · have hscan := scanKeyed_method r s k rms (hnomm k (List.mem_cons_self _ _))
      simp only [handle_type_lit, Ty.normalize, TypeElement.key, hscan]
      rw [ih _ hkeys' hok' hnomm']
      have hskm := sameKindKeyMatch_method_eq_false (hnomm k (List.mem_cons_self _ _))
      have hf : List.filter (fun m => !sameKindKeyMatch rms m)
          (TypeElement.method k :: rest) =
          TypeElement.method k ::
            List.filter (fun m => !sameKindKeyMatch rms m) rest := by
        simp [List.filter_cons, hskm]
      rw [hf]
      simp [List.append_assoc]

/-- C8 counterexample: the claim fails once Method members are involved.
For `L = {p: number, m(): …}` and `R = {m(): …}`, the keyed member `p` has
no key-equal member in `R` (so the claim demands a failure carrying
`MissingFields [p]`), but the query never returns it: the key-equal
Method↔Method pair `m` raises the internal Unimplemented signal, aborting
the whole query. -/
theorem claim_C8_counterexample :
    assign ⟨true⟩
      (.typeLit [.property (.ident "p") false (some (.keyword .tsNumberKeyword)),
                 .method (.ident "m")])
      (.typeLit [.method (.ident "m")]) 0 =
      .unimpl "assignment: method property in type literal" ∧
    keyEq (.ident "p") (.ident "m") = false := by
  refine ⟨?_, rfl⟩
  simp [assign, assign_inner.eq_def, assignRhs.eq_def, assignLhs,
    handle_type_lit, scanKeyed, TypeElement.key, keyEq, specialCase,
    specialCaseStep, Ty.normalize, generalize_lit]

/-- C8 amended: when the left side is a type literal (or an interface) of
keyed members (properties and methods) and the right side is a type
literal, every left member with no key-equal right member of the same kind
is recorded as missing — provided every key-matched property pair assigns
successfully and no key-equal Method↔Method pair occurs.  Then the query
succeeds when nothing is missing, and otherwise fails with `Errors`
containing a `MissingFields` listing exactly the missing members.  (A
key-equal Method↔Method pair instead raises the internal Unimplemented
signal, and a failing matched property pair aborts the query with that
pair's error, in both cases before any `MissingFields` is reported.) -/
theorem claim_C8_missing_fields_amended (r : Rule) (lms rms : List TypeElement)
    (s : Nat)
    (hkeys : ∀ m ∈ lms, (∃ k o a, m = TypeElement.property k o a) ∨
      (∃ k, m = TypeElement.method k))
    (hok : ∀ k o a k2 o2 a2, TypeElement.property k o a ∈ lms →
      TypeElement.property k2 o2 a2 ∈ rms → keyEq k k2 = true →
      assign_inner r (tyOr a) (tyOr a2) s = .ok)
    (hnomm : ∀ k, TypeElement.method k ∈ lms → ∀ k2, TypeElement.method k2 ∈ rms →
      keyEq k k2 = false) :
    (assign_inner r (.typeLit lms) (.typeLit rms) s =
      (if (lms.filter fun m => !sameKindKeyMatch rms m).isEmpty then .ok
       else .err (.errors s
         [.missingFields s (lms.filter fun m => !sameKindKeyMatch rms m)]))) ∧
    (∀ nm ext, assign_inner r (.interface nm ext lms) (.typeLit rms) s =
      (if (lms.filter fun m => !sameKindKeyMatch rms m).isEmpty then .ok
       else .err (.errors s
         [.missingFields s (lms.filter fun m => !sameKindKeyMatch rms m)]))) := by
  have hg : isKwOrIface ((generalize_lit (Ty.typeLit rms)).normalize) = false := rfl
  have hdec : decidedByRhs r (Ty.typeLit rms).normalize = false := rfl
  constructor
  · have hsc := specialCase_none_right (Ty.typeLit lms) s hg
    have hTL : (Ty.typeLit lms).normalize = Ty.typeLit lms := rfl
    rw [assign_inner_not_top hsc rfl, assignRhs_fallthrough hdec,
      assignLhs_typeLit hTL, handle_props r _ rms s lms [] [] hkeys hok hnomm]
    cases hf : (lms.filter fun m => !sameKindKeyMatch rms m).isEmpty <;> simp [hf]
  · intro nm ext
    have hsc := specialCase_none_right (Ty.interface nm ext lms) s hg
    have hIF : (Ty.interface nm ext lms).normalize = Ty.interface nm ext lms := rfl
    rw [assign_inner_not_top hsc rfl, assignRhs_fallthrough hdec,
      assignLhs_interface hIF, handle_props r _ rms s lms [] [] hkeys hok hnomm]
    cases hf : (lms.filter fun m => !sameKindKeyMatch rms m).isEmpty <;> simp [hf]

/-- C8 witness: `{p: number, m(): …} ← {p: number}` fails with
`MissingFields` naming exactly the method `m` (the matched property `p`
assigns fine, and the right side has no method at all). -/
theorem claim_C8_missing_fields_amended_witness :
    assign_inner ⟨true⟩
      (.typeLit [.property (.ident "p") false (some (.keyword .tsNumberKeyword)),
                 .method (.ident "m")])
      (.typeLit [.property (.ident "p") false (some (.keyword .tsNumberKeyword))]) 0 =
      .err (.errors 0 [.missingFields 0 [.method (.ident "m")]]) := by
  have hnum : assign_inner ⟨true⟩ (tyOr (some (.keyword .tsNumberKeyword)))
      (tyOr (some (.keyword .tsNumberKeyword))) 0 = .ok := by
    simp [tyOr, assign_inner.eq_def, assignRhs.eq_def, assignLhs, specialCase,
      specialCaseStep, Ty.normalize, generalize_lit]
  have h := (claim_C8_missing_fields_amended ⟨true⟩
    [.property (.ident "p") false (some (.keyword .tsNumberKeyword)),
     .method (.ident "m")]
    [.property (.ident "p") false (some (.keyword .tsNumberKeyword))] 0
    ?_ ?_ ?_).1
  · rw [h]
    simp [sameKindKeyMatch, keyEq, List.filter]
  · intro m hm
    rcases List.mem_cons.mp hm with rfl | hm2
    · exact Or.inl ⟨_, _, _, rfl⟩
    rcases List.mem_cons.mp hm2 with rfl | hm3
    · exact Or.inr ⟨_, rfl⟩
    cases hm3
  · intro k o a k2 o2 a2 h1 h2 hkey
    have h2' : k2 = .ident "p" ∧ o2 = false ∧
        a2 = some (.keyword .tsNumberKeyword) := by
      rcases List.mem_cons.mp h2 with he | h2b
      · exact ⟨(TypeElement.property.injEq _ _ _ _ _ _).mp he |>.1,
          (TypeElement.property.injEq _ _ _ _ _ _).mp he |>.2.1,
          (TypeElement.property.injEq _ _ _ _ _ _).mp he |>.2.2⟩
      · cases h2b
    obtain ⟨rfl, rfl, rfl⟩ := h2'
    rcases List.mem_cons.mp h1 with he | h1b
    · obtain ⟨rfl, rfl, rfl⟩ := (TypeElement.property.injEq _ _ _ _ _ _).mp he
      exact hnum
    rcases List.mem_cons.mp h1b with he | h1c
    · cases he
    cases h1c
  · intro k hk k2 hk2
    rcases List.mem_cons.mp hk2 with he | hk2b
    · cases he
    cases hk2b

/-- C3 witness: concrete instances of the amended statement — non-strict
mode lets `this ← null` succeed, and strict mode accepts `null ← null`
while rejecting `string ← null`. -/
theorem claim_C3_strict_null_flag_amended_witness :
    assign ⟨false⟩ .this (.keyword .tsNullKeyword) 0 = .ok ∧
    assign ⟨true⟩ (.keyword .tsNullKeyword) (.keyword .tsNullKeyword) 0 = .ok ∧
    assign ⟨true⟩ (.keyword .tsStringKeyword) (.keyword .tsNullKeyword) 0 ≠ .ok :=
  ⟨claim_C3_strict_null_flag_amended.1 .this 0,
   (claim_C3_strict_null_flag_amended.2.2.1 .tsNullKeyword 0).mpr
     (Or.inr (Or.inr rfl)),
   fun h => by
     have := (claim_C3_strict_null_flag_amended.2.2.1 .tsStringKeyword 0).mp h
     simp at this⟩

/-- C6 witness: a concrete instance of the amended statement — `undefined`
accepts `unknown`. -/
theorem claim_C6_unknown_asymmetry_amended_witness :
    assign ⟨true⟩ (.keyword .tsUndefinedKeyword) (.keyword .tsUnknownKeyword) 0 = .ok :=
  (claim_C6_unknown_asymmetry_amended ⟨true⟩ (.keyword .tsUndefinedKeyword) 0).mpr
    (Or.inr (Or.inr rfl))
